import Mathlib

set_option linter.unusedVariables false

/-! Shallow embedding of `collect_gas_data.py` (NMFT gas-data collection script).

The Python regular expression
`r'\|\s+NMFT\s+·\s+(\w+)\s+·(?:[^·]+·){2}\s*(\d+)\s+·'`
is embedded as a deterministic maximal-munch matcher.  Every repetition in the
pattern is over a character class disjoint from the character that must follow
it (`\s+` before a letter or `·`, `\w+` before whitespace, `[^·]+` before `·`,
`\d+` before whitespace), so greedy matching with backtracking — Python `re`
semantics — never actually backtracks on this pattern and coincides with
maximal munch.  Character classes are the ASCII restrictions of Python's
`\s`, `\w`, `\d`; the hardhat-gas-reporter tables the script scrapes are
ASCII apart from `·` itself. -/

/-- ASCII restriction of Python regex `\s`. -/
def isSpaceCh (c : Char) : Bool :=
  c == ' ' || c == '\t' || c == '\n' || c == '\x0b' || c == '\x0c' || c == '\r'

/-- ASCII restriction of Python regex `\w`. -/
def isWordCh (c : Char) : Bool :=
  ('a' ≤ c && c ≤ 'z') || ('A' ≤ c && c ≤ 'Z') || ('0' ≤ c && c ≤ '9') || c == '_'

/-- Python regex `\d` (ASCII decimal digit). -/
def isDigitCh (c : Char) : Bool :=
  '0' ≤ c && c ≤ '9'

/-- Python regex character class `[^·]`. -/
def nonMiddot (c : Char) : Bool := c != '·'

/-- Consume one literal character (regex `\|`, `·`). -/
def expectCh (a : Char) : List Char → Option (List Char)
  | [] => none
  | c :: cs => if c = a then some cs else none

/-- Consume a literal character sequence (regex `NMFT`). -/
def expectLit : List Char → List Char → Option (List Char)
  | [], cs => some cs
  | _ :: _, [] => none
  | a :: as, c :: cs => if c = a then expectLit as cs else none

/-- Greedy `+` over a character class: maximal nonempty run satisfying `p`,
returned together with the rest of the input. -/
def munch1 (p : Char → Bool) (cs : List Char) : Option (List Char × List Char) :=
  if cs.takeWhile p = [] then none else some (cs.takeWhile p, cs.dropWhile p)

/-- Greedy `*` over a character class: maximal (possibly empty) run. -/
def munch0 (p : Char → Bool) (cs : List Char) : List Char × List Char :=
  (cs.takeWhile p, cs.dropWhile p)

/-- Pattern prefix `\|\s+NMFT\s+·\s+(\w+)\s+·`: on success returns
(method capture, rest of input). -/
def matchHead (l : List Char) : Option (List Char × List Char) :=
  (expectCh '|' l).bind fun l1 =>
  (munch1 isSpaceCh l1).bind fun s1 =>
  (expectLit ['N', 'M', 'F', 'T'] s1.2).bind fun l2 =>
  (munch1 isSpaceCh l2).bind fun s2 =>
  (expectCh '·' s2.2).bind fun l3 =>
  (munch1 isSpaceCh l3).bind fun s3 =>
  (munch1 isWordCh s3.2).bind fun mth =>
  (munch1 isSpaceCh mth.2).bind fun s4 =>
  (expectCh '·' s4.2).bind fun l4 =>
  some (mth.1, l4)

/-- Pattern middle `(?:[^·]+·){2}`: the two skipped table columns. -/
def matchCols (l : List Char) : Option (List Char) :=
  (munch1 nonMiddot l).bind fun col1 =>
  (expectCh '·' col1.2).bind fun l1 =>
  (munch1 nonMiddot l1).bind fun col2 =>
  (expectCh '·' col2.2).bind fun l2 =>
  some l2

/-- Pattern tail `\s*(\d+)\s+·`: on success returns
(gas-digits capture, rest of input). -/
def matchGasTail (l : List Char) : Option (List Char × List Char) :=
  (munch1 isDigitCh (munch0 isSpaceCh l).2).bind fun gas =>
  (munch1 isSpaceCh gas.2).bind fun s1 =>
  (expectCh '·' s1.2).bind fun l1 =>
  some (gas.1, l1)

/-- Attempt to match the whole pattern
`\|\s+NMFT\s+·\s+(\w+)\s+·(?:[^·]+·){2}\s*(\d+)\s+·` at the start of `l`.
On success returns (method capture, gas-digits capture, rest of input after
the match). -/
def matchAt (l : List Char) : Option (List Char × List Char × List Char) :=
  (matchHead l).bind fun a =>
  (matchCols a.2).bind fun r =>
  (matchGasTail r).bind fun b =>
  some (a.1, b.1, b.2)

/-- Scanner worker for `re.findall`, structurally recursive on a fuel
parameter so that it evaluates inside the kernel; a successful match always
consumes at least one character, so fuel `l.length` suffices. -/
def findAllF : Nat → List Char → List (List Char × List Char)
  | _, [] => []
  | 0, _ :: _ => []
  | fuel + 1, c :: cs =>
    match matchAt (c :: cs) with
    | some out => (out.1, out.2.1) :: findAllF fuel out.2.2
    | none => findAllF fuel cs

/-- Python `re.findall` for this pattern: scan left to right, emit each
non-overlapping match's two captures, resume after the matched text. -/
def findAll (l : List Char) : List (List Char × List Char) :=
  findAllF l.length l

/-- Python `str.split('\n')`: split into lines at every newline, keeping
empty segments (the empty string yields one empty line). -/
def splitLines : List Char → List (List Char)
  | [] => [[]]
  | c :: cs =>
    if c = '\n' then [] :: splitLines cs
    else
      match splitLines cs with
      | [] => [[c]]
      | l :: ls => (c :: l) :: ls

/-- Python `int` of a nonempty decimal digit string. -/
def digitsToNat (ds : List Char) : Nat :=
  ds.foldl (fun a c => a * 10 + (c.toNat - 48)) 0

/-- One parsed row of the gas-reporter table: the dict
`{'method': ..., 'avg_gas': ...}` built by `parse_output`. -/
structure GasRecord where
  method : String
  avg_gas : Nat
deriving DecidableEq, Repr

/-- Records contributed by a single line of output:
`re.findall(pattern, line)` followed by the append loop. -/
def parseLineChars (l : List Char) : List GasRecord :=
  (findAll l).map fun p => { method := String.mk p.1, avg_gas := digitsToNat p.2 }

/-- `parse_output`: split the captured stdout into lines, run the regex on
every line, and collect all records in order. -/
def parse_output (output : String) : List GasRecord :=
  ((splitLines output.data).map parseLineChars).flatten

/-! The subprocess side of the script.  `subprocess.run` is modelled as a
pure oracle from the issued call — argument vector plus the `BATCH_NUMBER`
entry of the environment passed to it — to an exit code and captured
stdout. -/

/-- One `subprocess.run` invocation: argument vector plus the value of
`BATCH_NUMBER` in the environment handed to the child (`none` when the
call inherits the unmodified parent environment). -/
structure SubprocCall where
  args : List String
  batchNumber : Option String
deriving DecidableEq, Repr

/-- What one external command did: exit status and captured stdout. -/
structure SubprocResult where
  exitCode : Int
  stdout : String

/-- The outside world the script runs against. -/
def World : Type := SubprocCall → SubprocResult

/-- A Python exception escaping the script (`subprocess.CalledProcessError`
raised by `check=True`). -/
inductive PyExc where
  | calledProcessError (returncode : Int) (cmd : List String)
deriving DecidableEq, Repr

/-- `subprocess.run(['npx', 'hardhat', 'clean'], check=True)`: note the
script passes no `env=` here, so the modified copy holding `BATCH_NUMBER`
is not handed to this call. -/
def cleanCall : SubprocCall :=
  { args := ["npx", "hardhat", "clean"], batchNumber := none }

/-- The test command argument vector: `['npx', 'hardhat', 'test']`,
extended with `['--grep', grep]` when `grep` is truthy — Python `if grep:`
is false both for `None` and for the empty string. -/
def testCommand (grep : Option String) : List String :=
  ["npx", "hardhat", "test"] ++
    (match grep with
     | some g => if g = "" then [] else ["--grep", g]
     | none => [])

/-- The test invocation for one sweep size: `env['BATCH_NUMBER'] = str(size)`
and `subprocess.run(command, capture_output=True, text=True, env=env)`. -/
def testCall (size : Nat) (grep : Option String) : SubprocCall :=
  { args := testCommand grep, batchNumber := some (toString size) }

/-- `run_test`: run the clean command with `check=True` (raising
`CalledProcessError` on a non-zero exit), then run the test command without
`check` (its exit status is ignored) and return its captured stdout.  The
second component is the trace of subprocess calls issued. -/
def run_test (w : World) (size : Nat) (grep : Option String) :
    Except PyExc String × List SubprocCall :=
  if (w cleanCall).exitCode ≠ 0 then
    (Except.error (PyExc.calledProcessError (w cleanCall).exitCode cleanCall.args),
     [cleanCall])
  else
    (Except.ok (w (testCall size grep)).stdout, [cleanCall, testCall size grep])

/-- Python `range(start, stop, step)` for a positive step. -/
def pyRange (start stop step : Nat) : List Nat :=
  (List.range ((stop - start + step - 1) / step)).map fun k => start + k * step

def MIN_SIZE : Nat := 100

def MAX_SIZE : Nat := 1000

def STEP : Nat := 100

/-- The sizes swept by `collect_data`: `range(MIN_SIZE, MAX_SIZE + 1, STEP)`. -/
def sweepSizes : List Nat := pyRange MIN_SIZE (MAX_SIZE + 1) STEP

/-- A record after `collect_data` stamps the sweep size onto it
(`result['size'] = size`): the three dict fields `method`, `size`,
`avg_gas`. -/
structure SizedRecord where
  method : String
  avg_gas : Nat
  size : Nat
deriving DecidableEq, Repr

/-- `result['size'] = size` applied to one parsed record. -/
def stampSize (size : Nat) (r : GasRecord) : SizedRecord :=
  { method := r.method, avg_gas := r.avg_gas, size := size }

/-- The `for size in range(...)` loop body of `collect_data`, with the
accumulating `all_results` list and the trace of subprocess calls. -/
def collectLoop (w : World) (grep : Option String) :
    List Nat → List SizedRecord → List SubprocCall →
    Except PyExc (List SizedRecord) × List SubprocCall
  | [], acc, tr => (Except.ok acc, tr)
  | s :: rest, acc, tr =>
    match run_test w s grep with
    | (Except.error e, calls) => (Except.error e, tr ++ calls)
    | (Except.ok out, calls) =>
      collectLoop w grep rest (acc ++ (parse_output out).map (stampSize s)) (tr ++ calls)

/-- `collect_data`: sweep every size, parse each run's stdout, stamp the
size onto every parsed record, and concatenate everything in run order. -/
def collect_data (w : World) (grep : Option String) :
    Except PyExc (List SizedRecord) × List SubprocCall :=
  collectLoop w grep sweepSizes [] []

/-- Records contributed by the run at one sweep size. -/
def runRecords (w : World) (grep : Option String) (s : Nat) : List SizedRecord :=
  (parse_output (w (testCall s grep)).stdout).map (stampSize s)

/-! CSV output (`save_to_csv`) and the CSV re-reading done by
`plot_data_from_csv`. -/

/-- Decimal digit character for `d < 10`. -/
def digitCh (d : Nat) : Char := Char.ofNat (48 + d)

/-- Decimal rendering worker, structurally recursive on fuel (`n` itself is
enough fuel since the recursion divides by 10 each step). -/
def natToCharsF : Nat → Nat → List Char
  | 0, n => [digitCh (n % 10)]
  | fuel + 1, n =>
    if n < 10 then [digitCh n]
    else natToCharsF fuel (n / 10) ++ [digitCh (n % 10)]

/-- Python `str` of a nonnegative `int`: decimal digits, no sign, no
leading zeros (except `"0"`). -/
def natToChars (n : Nat) : List Char := natToCharsF n n

/-- `csv.writer` minimal quoting: a field is quoted iff it contains the
delimiter, the quote character, or a CR/LF. -/
def needsQuote (s : List Char) : Bool :=
  s.any fun c => c == ',' || c == '"' || c == '\r' || c == '\n'

/-- Double every quote character inside a quoted field. -/
def escapeQuotes (s : List Char) : List Char :=
  s.flatMap fun c => if c = '"' then ['"', '"'] else [c]

/-- One CSV field under `csv.QUOTE_MINIMAL`. -/
def csvField (s : List Char) : List Char :=
  if needsQuote s then '"' :: (escapeQuotes s ++ ['"']) else s

/-- One data row written by `csv.DictWriter.writerow` with fieldnames
`['method', 'size', 'avg_gas']` and the default `\r\n` line terminator. -/
def csvRowChars (r : SizedRecord) : List Char :=
  csvField r.method.data ++
    ',' :: (natToChars r.size ++ ',' :: (natToChars r.avg_gas ++ ['\r', '\n']))

/-- `save_to_csv`: `writeheader()` followed by one `writerow` per record,
in list order; the result is the full text of the written file. -/
def save_to_csv (data : List SizedRecord) : String :=
  String.mk (data.foldl (fun acc r => acc ++ csvRowChars r) "method,size,avg_gas\r\n".data)

/-- The CSV side of `main`: collect the data, then write `save_to_csv data`
to the file named `gas_results.csv`.  Returns (filename, file content); the
plotting calls are not modelled. -/
def main_csv (w : World) (grep : Option String) : Except PyExc (String × String) :=
  match (collect_data w grep).1 with
  | Except.error e => Except.error e
  | Except.ok data => Except.ok ("gas_results.csv", save_to_csv data)

/-- `pd.to_numeric` on one CSV cell holding a nonnegative integer. -/
def parseNatField (l : List Char) : Option Nat :=
  if !l.isEmpty && l.all isDigitCh then some (digitsToNat l) else none

/-! Exact-match computation lemmas for the pattern combinators, used to
evaluate the matcher symbolically on a well-formed gas-reporter line. -/

/-- The head of `l` (if any) does not satisfy `p`. -/
@[reducible] def headNot (p : Char → Bool) : List Char → Prop
  | [] => True
  | c :: _ => p c = false

/-- Does the 4-character literal `NMFT` start here? -/
def startsNMFT : List Char → Bool
  | 'N' :: 'M' :: 'F' :: 'T' :: _ => true
  | _ => false

/-- Does `NMFT` occur anywhere in the line? -/
def hasNMFT : List Char → Bool
  | [] => false
  | c :: cs => startsNMFT (c :: cs) || hasNMFT cs

/-- A canonical gas-reporter table line:
`| NMFT · <method> · <col> · <col> · <gas> ·`. -/
def gasLine (m c1 c2 g : String) : String :=
  "| NMFT · " ++ m ++ " · " ++ c1 ++ " · " ++ c2 ++ " · " ++ g ++ " ·"

/-- Extract the value of a successful run (used only to state concrete
checks). -/
def okOr (e : Except PyExc (List SizedRecord)) : List SizedRecord :=
  match e with
  | Except.ok l => l
  | Except.error _ => []

/-- A world whose clean command succeeds and whose test command prints one
well-formed gas-table line. -/
def okWorld : World := fun c =>
  if c.args = cleanCall.args then { exitCode := 0, stdout := "" }
  else { exitCode := 0, stdout := "| NMFT · mintNFT · 3 · - · 123456 ·" }

/-- A world whose clean command fails. -/
def failWorld : World := fun c =>
  if c.args = cleanCall.args then { exitCode := 1, stdout := "" }
  else { exitCode := 0, stdout := "" }

/-- A world whose clean command succeeds but whose test command exits
non-zero while still printing output. -/
def testFailWorld : World := fun c =>
  if c.args = cleanCall.args then { exitCode := 0, stdout := "" }
  else { exitCode := 1, stdout := "boom" }

/-- A world whose test output contains no line matching the pattern. -/
def emptyWorld : World := fun _ => { exitCode := 0, stdout := "no gas table here" }

/-- A world whose test output matches the same method name twice. -/
def dupWorld : World := fun c =>
  if c.args = cleanCall.args then { exitCode := 0, stdout := "" }
  else
    { exitCode := 0,
      stdout := "| NMFT · mintNFT · 3 · - · 5 ·\n| NMFT · mintNFT · 3 · - · 7 ·" }

instance {e a : Type} [DecidableEq e] [DecidableEq a] : DecidableEq (Except e a) := fun x y =>
  match x, y with
  | Except.ok u, Except.ok v =>
    if h : u = v then isTrue (by rw [h]) else isFalse (by intro hc; cases hc; exact h rfl)
  | Except.error u, Except.error v =>
    if h : u = v then isTrue (by rw [h]) else isFalse (by intro hc; cases hc; exact h rfl)
  | Except.ok _, Except.error _ => isFalse (by intro hc; cases hc)
  | Except.error _, Except.ok _ => isFalse (by intro hc; cases hc)

/-! The CSV re-read of `plot_data_from_csv`, modelled after `pd.read_csv`
with its default settings: quote-aware tokenizing (so delimiters, quotes
and newlines inside quoted cells are handled), the default NA token list,
and per-column dtype inference over the method column.  Columns pandas
would infer as float or bool are not represented by the model and make the
modelled read fail, rather than being misreported as strings. -/

/-- Characters an unquoted CSV cell may contain: everything but the
delimiter and the record terminator. -/
def csvPlainCh (c : Char) : Bool := !(c == ',' || c == '\r' || c == '\n')

/-- Quoted-cell tail parser; the input starts right after the opening
quote.  A doubled quote is an escaped quote character, a single quote
closes the cell; returns the cell text and the input after the closing
quote. -/
def parseCellQ : List Char → Option (List Char × List Char)
  | [] => none
  | [c] => if c = '"' then some ([], []) else none
  | c :: d :: rest2 =>
    if c = '"' then
      if d = '"' then (parseCellQ rest2).map fun p => ('"' :: p.1, p.2)
      else some ([], d :: rest2)
    else (parseCellQ (d :: rest2)).map fun p => (c :: p.1, p.2)

/-- One CSV cell: quoted if it starts with a quote character, otherwise
the maximal run of non-delimiter characters. -/
def parseCell : List Char → Option (List Char × List Char)
  | [] => some ([], [])
  | c :: rest => if c = '"' then parseCellQ rest else some (munch0 csvPlainCh (c :: rest))

/-- End of one CSV record: the `\r\n` terminator the writer emits, or the
end of the file. -/
def endRecord : List Char → Option (List Char)
  | [] => some []
  | [_] => none
  | c :: d :: rest2 => if c = '\r' ∧ d = '\n' then some rest2 else none

/-- One record of the three-column file `save_to_csv` writes: three cells
separated by commas and closed by the record terminator. -/
def parseRecord3 (l : List Char) : Option ((List Char × List Char × List Char) × List Char) :=
  (parseCell l).bind fun p1 =>
  (expectCh ',' p1.2).bind fun r1 =>
  (parseCell r1).bind fun p2 =>
  (expectCh ',' p2.2).bind fun r2 =>
  (parseCell r2).bind fun p3 =>
  (endRecord p3.2).map fun rest => ((p1.1, p2.1, p3.1), rest)

/-- All records of the file in order, fuelled: a record always consumes at
least one character, so the text length is enough fuel. -/
def parseRecordsF : Nat → List Char → Option (List (List Char × List Char × List Char))
  | _, [] => some []
  | 0, _ :: _ => none
  | fuel + 1, c :: cs =>
    (parseRecord3 (c :: cs)).bind fun pr =>
    (parseRecordsF fuel pr.2).map fun rs => pr.1 :: rs

def parseAllRecords (l : List Char) : Option (List (List Char × List Char × List Char)) :=
  parseRecordsF l.length l

/-- The `pd.read_csv` default NA tokens (the documented default
`na_values`): a cell equal to one of these reads back as missing (NaN),
the empty cell included. -/
def naTokens : List String :=
  ["", "#N/A", "#N/A N/A", "#NA", "-1.#IND", "-1.#QNAN", "-NaN", "-nan",
   "1.#IND", "1.#QNAN", "<NA>", "N/A", "NA", "NULL", "NaN", "None", "n/a",
   "nan", "null"]

def isNA (s : String) : Bool := naTokens.contains s

/-- Drop one leading sign character. -/
def dropSign (l : List Char) : List Char :=
  match l with
  | [] => []
  | c :: r => if c = '+' ∨ c = '-' then r else c :: r

/-- Strip leading and trailing spaces, which the pandas tokenizer
tolerates around numeric cells. -/
def trimSpaces (l : List Char) : List Char :=
  ((l.dropWhile fun c => c == ' ').reverse.dropWhile fun c => c == ' ').reverse

/-- A cell pandas parses as an integer: an optional sign followed by one
or more decimal digits, nothing else. -/
def intCell (l : List Char) : Option Int :=
  match l with
  | [] => none
  | c :: r =>
    if c = '-' then
      if r ≠ [] ∧ r.all isDigitCh then some (-(digitsToNat r : Int)) else none
    else if c = '+' then
      if r ≠ [] ∧ r.all isDigitCh then some ((digitsToNat r : Int)) else none
    else
      if (c :: r).all isDigitCh then some ((digitsToNat (c :: r) : Int)) else none

/-- A cell pandas numeric inference accepts (a deliberately permissive
model of the reader's float grammar, space-trimmed): optional sign, then
digits with an optional fractional part and an optional exponent, or an
infinity / nan literal. -/
def numericLike (l : List Char) : Bool :=
  let l1 := dropSign (trimSpaces l)
  let low := l1.map Char.toLower
  if low = "inf".data ∨ low = "infinity".data ∨ low = "nan".data then true
  else
    let ip := l1.takeWhile isDigitCh
    let r1 := l1.dropWhile isDigitCh
    let hasDot := r1.head? = some '.'
    let after := if hasDot then r1.drop 1 else r1
    let fp := if hasDot then after.takeWhile isDigitCh else []
    let r2 := if hasDot then after.dropWhile isDigitCh else r1
    if ip = [] ∧ fp = [] then false
    else
      match r2 with
      | [] => true
      | e :: r3 =>
        if e = 'e' ∨ e = 'E' then
          let r4 := dropSign r3
          decide (r4 ≠ []) && r4.all isDigitCh
        else false

/-- A cell pandas parses as a boolean. -/
def boolLike (s : String) : Bool :=
  ["True", "False", "TRUE", "FALSE", "true", "false"].contains
    (String.mk (trimSpaces s.data))

/-- A cell that stays a plain string under pandas default NA parsing and
column dtype inference. -/
def pdText (s : String) : Bool := !isNA s && !numericLike s.data && !boolLike s

/-- A value of the method column after `pd.read_csv`: a string cell of an
object-dtype column, a missing value, or an integer cell of a column
inferred numeric. -/
inductive PdCell where
  | vStr (s : String)
  | vNaN
  | vNum (n : Int)
deriving DecidableEq, Repr

/-- One row of the re-read DataFrame. -/
structure PdRecord where
  method : PdCell
  avg_gas : Nat
  size : Nat
deriving DecidableEq, Repr

/-- Column read of the method cells with pandas default NA parsing and
dtype inference: a column holding at least one plain-text cell has object
dtype and keeps its strings (NA cells becoming NaN); a column whose cells
are all missing or integers is numeric; any other column — inferred
float64 or bool — is outside this model. -/
def readMethodCol (cells : List String) : Option (List PdCell) :=
  if cells.any pdText then
    some (cells.map fun s => if isNA s then PdCell.vNaN else PdCell.vStr s)
  else if cells.all fun s => isNA s || (intCell s.data).isSome then
    some (cells.map fun s =>
      if isNA s then PdCell.vNaN
      else
        match intCell s.data with
        | some n => PdCell.vNum n
        | none => PdCell.vNaN)
  else
    none

/-- `pd.to_numeric` over the size / avg_gas columns of the written file:
every cell must be a digit string. -/
def readNatCol : List (List Char) → Option (List Nat)
  | [] => some []
  | c :: cs =>
    (parseNatField c).bind fun n =>
    (readNatCol cs).bind fun ns =>
    some (n :: ns)

/-- Rebuild the DataFrame rows from the three columns. -/
def zipRecords : List PdCell → List Nat → List Nat → List PdRecord
  | m :: ms, s :: ss, g :: gs =>
    { method := m, size := s, avg_gas := g } :: zipRecords ms ss gs
  | _, _, _ => []

/-- Interpretation of the tokenized records: the first record is the
header naming the three columns; the method column is read with pandas
default NA parsing and dtype inference, and the `size` and `avg_gas`
columns are converted to numbers. -/
def readAfterParse : List (List Char × List Char × List Char) → Option (List PdRecord)
  | [] => none
  | header :: rows =>
    if header = ("method".data, "size".data, "avg_gas".data) then
      (readMethodCol (rows.map fun t => String.mk t.1)).bind fun ms =>
      (readNatCol (rows.map fun t => t.2.1)).bind fun ss =>
      (readNatCol (rows.map fun t => t.2.2)).bind fun gs =>
      some (zipRecords ms ss gs)
    else none

/-- Modelled `pd.read_csv` + `pd.to_numeric` of `plot_data_from_csv`:
tokenize the text into three-cell records, take the first record as the
header naming the three columns, read the method column with default NA
parsing and dtype inference, and convert the `size` and `avg_gas` columns
to numbers. -/
def read_csv_records (content : String) : Option (List PdRecord) :=
  (parseAllRecords content.data).bind readAfterParse

/-- A concrete sweep result used to evaluate the round trip, one method
name containing the delimiter and quote characters. -/
def rtData : List SizedRecord :=
  [{ method := "mint,\"NFT\"", avg_gas := 123456, size := 100 },
   { method := "transferNFT", avg_gas := 78910, size := 200 }]


theorem expectCh_length {a : Char} {l r : List Char} (h : expectCh a l = some r) :
    r.length < l.length := by
  cases l with
  | nil => simp [expectCh] at h
  | cons c cs =>
    simp only [expectCh] at h
    split at h
    · cases h; simp
    · cases h

theorem expectLit_length {t l r : List Char} (h : expectLit t l = some r) :
    r.length ≤ l.length := by
  induction t generalizing l with
  | nil => simp only [expectLit, Option.some.injEq] at h; simp [h]
  | cons a as ih =>
    cases l with
    | nil => simp [expectLit] at h
    | cons c cs =>
      simp only [expectLit] at h
      split at h
      · exact le_trans (ih h) (by simp)
      · cases h

theorem munch1_eq {p : Char → Bool} {l : List Char} {s : List Char × List Char}
    (h : munch1 p l = some s) :
    s.1 = l.takeWhile p ∧ s.2 = l.dropWhile p ∧ s.1 ≠ [] := by
  simp only [munch1] at h
  split at h
  · cases h
  · rename_i hne
    cases h
    exact ⟨rfl, rfl, hne⟩

theorem dropWhile_length_le (p : Char → Bool) (l : List Char) :
    (l.dropWhile p).length ≤ l.length := by
  induction l with
  | nil => simp
  | cons c cs ih =>
    rw [List.dropWhile_cons]
    split
    · exact le_trans ih (by simp)
    · simp

theorem munch1_length {p : Char → Bool} {l : List Char} {s : List Char × List Char}
    (h : munch1 p l = some s) : s.2.length ≤ l.length := by
  obtain ⟨-, h2, -⟩ := munch1_eq h
  rw [h2]
  exact dropWhile_length_le p l

theorem munch0_length (p : Char → Bool) (l : List Char) :
    (munch0 p l).2.length ≤ l.length := by
  simp only [munch0]
  exact dropWhile_length_le p l

theorem matchHead_length {l : List Char} {a : List Char × List Char}
    (h : matchHead l = some a) : a.2.length < l.length := by
  unfold matchHead at h
  obtain ⟨l1, h1, h⟩ := Option.bind_eq_some.mp h
  obtain ⟨s1, h2, h⟩ := Option.bind_eq_some.mp h
  obtain ⟨l2, h3, h⟩ := Option.bind_eq_some.mp h
  obtain ⟨s2, h4, h⟩ := Option.bind_eq_some.mp h
  obtain ⟨l3, h5, h⟩ := Option.bind_eq_some.mp h
  obtain ⟨s3, h6, h⟩ := Option.bind_eq_some.mp h
  obtain ⟨mth, h7, h⟩ := Option.bind_eq_some.mp h
  obtain ⟨s4, h8, h⟩ := Option.bind_eq_some.mp h
  obtain ⟨l4, h9, h⟩ := Option.bind_eq_some.mp h
  cases h
  have e1 := expectCh_length h1
  have e2 := munch1_length h2
  have e3 := expectLit_length h3
  have e4 := munch1_length h4
  have e5 := expectCh_length h5
  have e6 := munch1_length h6
  have e7 := munch1_length h7
  have e8 := munch1_length h8
  have e9 := expectCh_length h9
  dsimp only
  omega

theorem matchCols_length {l : List Char} {r : List Char}
    (h : matchCols l = some r) : r.length ≤ l.length := by
  unfold matchCols at h
  obtain ⟨col1, h1, h⟩ := Option.bind_eq_some.mp h
  obtain ⟨l1, h2, h⟩ := Option.bind_eq_some.mp h
  obtain ⟨col2, h3, h⟩ := Option.bind_eq_some.mp h
  obtain ⟨l2, h4, h⟩ := Option.bind_eq_some.mp h
  cases h
  have e1 := munch1_length h1
  have e2 := expectCh_length h2
  have e3 := munch1_length h3
  have e4 := expectCh_length h4
  omega

theorem matchGasTail_length {l : List Char} {b : List Char × List Char}
    (h : matchGasTail l = some b) : b.2.length ≤ l.length := by
  unfold matchGasTail at h
  obtain ⟨gas, h1, h⟩ := Option.bind_eq_some.mp h
  obtain ⟨s1, h2, h⟩ := Option.bind_eq_some.mp h
  obtain ⟨l1, h3, h⟩ := Option.bind_eq_some.mp h
  cases h
  have e0 := munch0_length isSpaceCh l
  have e1 := munch1_length h1
  have e2 := munch1_length h2
  have e3 := expectCh_length h3
  dsimp only
  omega

/-- A successful match consumes at least one character. -/
theorem matchAt_length {l : List Char} {out : List Char × List Char × List Char}
    (h : matchAt l = some out) : out.2.2.length < l.length := by
  unfold matchAt at h
  obtain ⟨a, h1, h⟩ := Option.bind_eq_some.mp h
  obtain ⟨r, h2, h⟩ := Option.bind_eq_some.mp h
  obtain ⟨b, h3, h⟩ := Option.bind_eq_some.mp h
  cases h
  have e1 := matchHead_length h1
  have e2 := matchCols_length h2
  have e3 := matchGasTail_length h3
  dsimp only
  omega

/-- The result of the scanner does not depend on the fuel, as long as the
fuel covers the input length. -/
theorem findAllF_fuel {n : Nat} {l : List Char} (h : l.length ≤ n) (m : Nat)
    (hm : l.length ≤ m) : findAllF n l = findAllF m l := by
  induction n generalizing l m with
  | zero =>
    cases l with
    | nil => cases m <;> rfl
    | cons c cs => simp at h
  | succ n ih =>
    cases l with
    | nil => cases m <;> rfl
    | cons c cs =>
      cases m with
      | zero => simp at hm
      | succ m =>
        cases hout : matchAt (c :: cs) with
        | some out =>
          have hlt := matchAt_length hout
          simp only [List.length_cons] at h hm hlt
          simp only [findAllF, hout]
          rw [ih (by omega) m (by omega)]
        | none =>
          simp only [List.length_cons] at h hm
          simp only [findAllF, hout]
          rw [ih (by omega) m (by omega)]

theorem findAll_nil : findAll [] = [] := rfl

theorem findAll_cons (c : Char) (cs : List Char) :
    findAll (c :: cs) =
      match matchAt (c :: cs) with
      | some out => (out.1, out.2.1) :: findAll out.2.2
      | none => findAll cs := by
  show findAllF (c :: cs).length (c :: cs) = _
  cases hout : matchAt (c :: cs) with
  | some out =>
    have hlt := matchAt_length hout
    simp only [List.length_cons] at hlt
    simp only [List.length_cons, findAllF, hout]
    rw [findAllF_fuel (l := out.2.2) (by omega) out.2.2.length (by omega)]
    rfl
  | none =>
    simp only [List.length_cons, findAllF, hout]
    rfl

theorem run_test_of_clean_ok {w : World} (h : (w cleanCall).exitCode = 0)
    (size : Nat) (grep : Option String) :
    run_test w size grep =
      (Except.ok (w (testCall size grep)).stdout, [cleanCall, testCall size grep]) := by
  simp [run_test, h]

theorem run_test_of_clean_fail {w : World} (h : (w cleanCall).exitCode ≠ 0)
    (size : Nat) (grep : Option String) :
    run_test w size grep =
      (Except.error (PyExc.calledProcessError (w cleanCall).exitCode cleanCall.args),
       [cleanCall]) := by
  simp [run_test, h]

/-- Closed form of the sweep loop when the clean command keeps succeeding. -/
theorem collectLoop_ok {w : World} (h : (w cleanCall).exitCode = 0)
    (grep : Option String) :
    ∀ (sizes : List Nat) (acc : List SizedRecord) (tr : List SubprocCall),
      collectLoop w grep sizes acc tr =
        (Except.ok (acc ++ (sizes.map (runRecords w grep)).flatten),
         tr ++ (sizes.map fun s => [cleanCall, testCall s grep]).flatten) := by
  intro sizes
  induction sizes with
  | nil => intro acc tr; simp [collectLoop]
  | cons s rest ih =>
    intro acc tr
    rw [collectLoop, run_test_of_clean_ok h]
    dsimp only
    rw [ih]
    simp [runRecords]

/-- Closed form of `collect_data` when the clean command succeeds. -/
theorem collect_data_ok {w : World} (h : (w cleanCall).exitCode = 0)
    (grep : Option String) :
    collect_data w grep =
      (Except.ok ((sweepSizes.map (runRecords w grep)).flatten),
       (sweepSizes.map fun s => [cleanCall, testCall s grep]).flatten) := by
  rw [collect_data, collectLoop_ok h, List.nil_append, List.nil_append]

theorem sweepSizes_eq :
    sweepSizes = [100, 200, 300, 400, 500, 600, 700, 800, 900, 1000] := by decide

/-- If the clean command fails, the whole sweep aborts on its first
iteration with the propagated `CalledProcessError`. -/
theorem collect_data_clean_fail {w : World} (h : (w cleanCall).exitCode ≠ 0)
    (grep : Option String) :
    collect_data w grep =
      (Except.error (PyExc.calledProcessError (w cleanCall).exitCode cleanCall.args),
       [cleanCall]) := by
  rw [collect_data, sweepSizes_eq, collectLoop, run_test_of_clean_fail h]
  rfl

theorem natToCharsF_fuel :
    ∀ (f1 : Nat) {n : Nat} (f2 : Nat), n ≤ f1 → n ≤ f2 →
      natToCharsF f1 n = natToCharsF f2 n := by
  intro f1
  induction f1 with
  | zero =>
    intro n f2 h1 h2
    have hn : n = 0 := Nat.le_zero.mp h1
    subst hn
    cases f2 with
    | zero => rfl
    | succ m => simp [natToCharsF]
  | succ f ih =>
    intro n f2 h1 h2
    cases f2 with
    | zero =>
      have hn : n = 0 := Nat.le_zero.mp h2
      subst hn
      simp [natToCharsF]
    | succ m =>
      simp only [natToCharsF]
      split
      · rfl
      · rename_i hge
        have hpos : 10 ≤ n := by omega
        have hdiv : n / 10 < n := Nat.div_lt_self (by omega) (by omega)
        rw [ih m (by omega) (by omega)]

/-- Unfolding equation for `natToChars`. -/
theorem natToChars_eq (n : Nat) :
    natToChars n =
      if n < 10 then [digitCh n]
      else natToChars (n / 10) ++ [digitCh (n % 10)] := by
  cases n with
  | zero => simp [natToChars, natToCharsF]
  | succ k =>
    show natToCharsF (k + 1) (k + 1) = _
    simp only [natToCharsF]
    split
    · rfl
    · rename_i hge
      have hdiv : (k + 1) / 10 < k + 1 := Nat.div_lt_self (by omega) (by omega)
      rw [natToCharsF_fuel k ((k + 1) / 10) (by omega) (by omega)]
      rfl

theorem digitCh_toNat {d : Nat} (h : d < 10) : (digitCh d).toNat = 48 + d := by
  interval_cases d <;> decide

theorem digitCh_isDigit {d : Nat} (h : d < 10) : isDigitCh (digitCh d) = true := by
  interval_cases d <;> decide

/-- Parsing inverts printing: `int(str(n)) == n`. -/
theorem digitsToNat_natToChars (n : Nat) : digitsToNat (natToChars n) = n := by
  induction n using Nat.strong_induction_on with
  | _ n ih =>
    rw [natToChars_eq]
    split
    · rename_i hlt
      show List.foldl _ 0 [digitCh n] = n
      simp [List.foldl, digitCh_toNat hlt]
    · rename_i hge
      have hdiv : n / 10 < n := Nat.div_lt_self (by omega) (by omega)
      show List.foldl _ 0 (natToChars (n / 10) ++ [digitCh (n % 10)]) = n
      rw [List.foldl_append]
      have hmod : n % 10 < 10 := Nat.mod_lt _ (by omega)
      show digitsToNat (natToChars (n / 10)) * 10 + ((digitCh (n % 10)).toNat - 48) = n
      rw [ih _ hdiv, digitCh_toNat hmod]
      omega

theorem natToChars_digits (n : Nat) : (natToChars n).all isDigitCh = true := by
  induction n using Nat.strong_induction_on with
  | _ n ih =>
    rw [natToChars_eq]
    split
    · rename_i hlt
      simp [digitCh_isDigit hlt]
    · rename_i hge
      have hdiv : n / 10 < n := Nat.div_lt_self (by omega) (by omega)
      have hmod : n % 10 < 10 := Nat.mod_lt _ (by omega)
      simp [List.all_append, ih _ hdiv, digitCh_isDigit hmod]

theorem natToChars_ne_nil (n : Nat) : natToChars n ≠ [] := by
  rw [natToChars_eq]
  split <;> simp

theorem foldl_rows (rows : List SizedRecord) :
    ∀ init : List Char,
      rows.foldl (fun acc r => acc ++ csvRowChars r) init =
        init ++ (rows.map csvRowChars).flatten := by
  induction rows with
  | nil => intro init; simp
  | cons r rs ih =>
    intro init
    simp only [List.foldl_cons, List.map_cons, List.flatten_cons, ih, List.append_assoc]

/-- Closed form of the CSV file text: the fixed header line followed by the
rows in input order. -/
theorem save_to_csv_eq (data : List SizedRecord) :
    save_to_csv data =
      String.mk ("method,size,avg_gas\r\n".data ++ (data.map csvRowChars).flatten) := by
  rw [save_to_csv, foldl_rows]

theorem digit_not_special {c : Char} (h : isDigitCh c = true) :
    c ≠ '\n' ∧ c ≠ '\r' ∧ c ≠ ',' ∧ c ≠ '"' := by
  refine ⟨?_, ?_, ?_, ?_⟩ <;> (rintro rfl; exact absurd h (by decide))

theorem list_ne_nil_isEmpty {l : List Char} (h : l ≠ []) : l.isEmpty = false := by
  cases l with
  | nil => exact absurd rfl h
  | cons a as => rfl

theorem parseNatField_natToChars (n : Nat) : parseNatField (natToChars n) = some n := by
  have h1 : (natToChars n).isEmpty = false := list_ne_nil_isEmpty (natToChars_ne_nil n)
  simp [parseNatField, h1, natToChars_digits n, digitsToNat_natToChars n]

theorem span_exact (p : Char → Bool) (xs ys : List Char)
    (hall : ∀ c ∈ xs, p c = true) (h : headNot p ys) :
    (xs ++ ys).takeWhile p = xs ∧ (xs ++ ys).dropWhile p = ys := by
  induction xs with
  | nil =>
    cases ys with
    | nil => simp
    | cons y ys =>
      have hy : p y = false := h
      simp [List.takeWhile_cons, List.dropWhile_cons, hy]
  | cons x xs ih =>
    have hx : p x = true := hall x (by simp)
    have hrest : ∀ c ∈ xs, p c = true := fun c hc => hall c (by simp [hc])
    obtain ⟨h1, h2⟩ := ih hrest
    simp [List.takeWhile_cons, List.dropWhile_cons, hx, h1, h2]

theorem munch1_exact (p : Char → Bool) (xs ys : List Char) (hne : xs ≠ [])
    (hall : ∀ c ∈ xs, p c = true) (h : headNot p ys) :
    munch1 p (xs ++ ys) = some (xs, ys) := by
  obtain ⟨h1, h2⟩ := span_exact p xs ys hall h
  rw [munch1, h1, h2, if_neg hne]

theorem munch1_one (p : Char → Bool) (x : Char) (ys : List Char)
    (hx : p x = true) (h : headNot p ys) :
    munch1 p (x :: ys) = some ([x], ys) := by
  have := munch1_exact p [x] ys (by simp) (by simpa using hx) h
  simpa using this

theorem munch0_exact (p : Char → Bool) (xs ys : List Char)
    (hall : ∀ c ∈ xs, p c = true) (h : headNot p ys) :
    munch0 p (xs ++ ys) = (xs, ys) := by
  obtain ⟨h1, h2⟩ := span_exact p xs ys hall h
  rw [munch0, h1, h2]

theorem expectCh_exact (a : Char) (ys : List Char) :
    expectCh a (a :: ys) = some ys := by
  simp [expectCh]

theorem expectLit_NMFT (ys : List Char) :
    expectLit ['N', 'M', 'F', 'T'] ('N' :: 'M' :: 'F' :: 'T' :: ys) = some ys := by
  simp [expectLit]

theorem space_cases {c : Char} (h : isSpaceCh c = true) :
    c = ' ' ∨ c = '\t' ∨ c = '\n' ∨ c = '\x0b' ∨ c = '\x0c' ∨ c = '\r' := by
  have := h
  simp only [isSpaceCh, Bool.or_eq_true, beq_iff_eq] at this
  tauto

theorem word_not_space {c : Char} (h : isWordCh c = true) : isSpaceCh c = false := by
  cases hb : isSpaceCh c with
  | false => rfl
  | true =>
    exfalso
    rcases space_cases hb with rfl | rfl | rfl | rfl | rfl | rfl <;>
      exact absurd h (by decide)

theorem digit_not_space {c : Char} (h : isDigitCh c = true) : isSpaceCh c = false := by
  cases hb : isSpaceCh c with
  | false => rfl
  | true =>
    exfalso
    rcases space_cases hb with rfl | rfl | rfl | rfl | rfl | rfl <;>
      exact absurd h (by decide)

theorem headNot_of_cons_false {p : Char → Bool} {x : Char} {xs ys : List Char}
    (h : p x = false) : headNot p ((x :: xs) ++ ys) := h

theorem headNot_head {p : Char → Bool} {xs ys : List Char} (hne : xs ≠ [])
    (hall : ∀ c ∈ xs, p c = false) : headNot p (xs ++ ys) := by
  cases xs with
  | nil => exact absurd rfl hne
  | cons x l => exact hall x (by simp)

theorem munch1_one_cons (p : Char → Bool) (x y : Char) (ys : List Char)
    (hx : p x = true) (hy : p y = false) :
    munch1 p (x :: (y :: ys)) = some ([x], y :: ys) :=
  munch1_one p x (y :: ys) hx hy

theorem munch1_var (p : Char → Bool) (xs : List Char) (y : Char) (ys : List Char)
    (hne : xs ≠ []) (hall : ∀ c ∈ xs, p c = true) (hy : p y = false) :
    munch1 p (xs ++ y :: ys) = some (xs, y :: ys) :=
  munch1_exact p xs (y :: ys) hne hall hy

theorem munch1_one_before (p : Char → Bool) (x : Char) (xs ys : List Char)
    (hx : p x = true) (hne : xs ≠ [])
    (hall : ∀ c ∈ xs, p c = false) :
    munch1 p (x :: (xs ++ ys)) = some ([x], xs ++ ys) :=
  munch1_one p x (xs ++ ys) hx (headNot_head hne hall)

theorem munch0_one_before (p : Char → Bool) (x : Char) (xs ys : List Char)
    (hx : p x = true) (hne : xs ≠ [])
    (hall : ∀ c ∈ xs, p c = false) :
    munch0 p (x :: (xs ++ ys)) = ([x], xs ++ ys) := by
  have := munch0_exact p [x] (xs ++ ys) (by simpa using hx) (headNot_head hne hall)
  simpa using this

theorem munch1_col (xs ys : List Char) (hall : ∀ c ∈ xs, nonMiddot c = true) :
    munch1 nonMiddot (' ' :: (xs ++ ' ' :: '·' :: ys)) =
      some (' ' :: (xs ++ [' ']), '·' :: ys) := by
  have hshape : ' ' :: (xs ++ ' ' :: '·' :: ys) = (' ' :: (xs ++ [' '])) ++ '·' :: ys := by
    simp
  rw [hshape]
  apply munch1_exact
  · simp
  · intro c hc
    simp only [List.mem_cons, List.mem_append, List.mem_singleton] at hc
    rcases hc with rfl | hx | rfl | h0
    · decide
    · exact hall c hx
    · decide
    · exact absurd h0 (List.not_mem_nil c)
  · show nonMiddot '·' = false
    decide

theorem matchHead_exact (m rest : List Char) (hm : m ≠ [])
    (hmw : ∀ c ∈ m, isWordCh c = true) :
    matchHead ('|' :: ' ' :: 'N' :: 'M' :: 'F' :: 'T' :: ' ' :: '·' :: ' ' ::
      (m ++ ' ' :: '·' :: rest)) = some (m, rest) := by
  rw [matchHead, expectCh_exact '|', Option.some_bind]
  rw [munch1_one_cons isSpaceCh ' ' 'N' _ (by decide) (by decide), Option.some_bind]
  dsimp only
  rw [expectLit_NMFT, Option.some_bind]
  rw [munch1_one_cons isSpaceCh ' ' '·' _ (by decide) (by decide), Option.some_bind]
  dsimp only
  rw [expectCh_exact '·', Option.some_bind]
  rw [munch1_one_before isSpaceCh ' ' m _ (by decide) hm
    (fun c hc => word_not_space (hmw c hc)), Option.some_bind]
  dsimp only
  rw [munch1_var isWordCh m ' ' _ hm hmw (by decide), Option.some_bind]
  dsimp only
  rw [munch1_one_cons isSpaceCh ' ' '·' _ (by decide) (by decide), Option.some_bind]
  dsimp only
  rw [expectCh_exact '·', Option.some_bind]

theorem matchCols_exact (c1 c2 rest : List Char)
    (hc1 : ∀ c ∈ c1, nonMiddot c = true) (hc2 : ∀ c ∈ c2, nonMiddot c = true) :
    matchCols (' ' :: (c1 ++ ' ' :: '·' :: (' ' :: (c2 ++ ' ' :: '·' :: rest)))) =
      some rest := by
  rw [matchCols, munch1_col c1 _ hc1, Option.some_bind]
  dsimp only
  rw [expectCh_exact '·', Option.some_bind]
  rw [munch1_col c2 _ hc2, Option.some_bind]
  dsimp only
  rw [expectCh_exact '·', Option.some_bind]

theorem matchGasTail_exact (g : List Char) (hg : g ≠ [])
    (hgd : ∀ c ∈ g, isDigitCh c = true) :
    matchGasTail (' ' :: (g ++ [' ', '·'])) = some (g, []) := by
  rw [matchGasTail,
    munch0_one_before isSpaceCh ' ' g _ (by decide) hg
      (fun c hc => digit_not_space (hgd c hc))]
  dsimp only
  rw [show (g ++ [' ', '·']) = g ++ ' ' :: ['·'] from rfl,
    munch1_var isDigitCh g ' ' _ hg hgd (by decide), Option.some_bind]
  dsimp only
  rw [munch1_one_cons isSpaceCh ' ' '·' _ (by decide) (by decide), Option.some_bind]
  dsimp only
  rw [expectCh_exact '·', Option.some_bind]

/-- The full pattern on a canonical gas-reporter table line: the match
captures exactly the method name and the gas digits and consumes the whole
line. -/
theorem matchAt_exact (m c1 c2 g : List Char) (hm : m ≠ [])
    (hmw : ∀ c ∈ m, isWordCh c = true)
    (hc1 : ∀ c ∈ c1, nonMiddot c = true) (hc2 : ∀ c ∈ c2, nonMiddot c = true)
    (hg : g ≠ []) (hgd : ∀ c ∈ g, isDigitCh c = true) :
    matchAt ('|' :: ' ' :: 'N' :: 'M' :: 'F' :: 'T' :: ' ' :: '·' :: ' ' ::
      (m ++ ' ' :: '·' :: (' ' :: (c1 ++ ' ' :: '·' ::
        (' ' :: (c2 ++ ' ' :: '·' :: (' ' :: (g ++ [' ', '·'])))))))) =
      some (m, g, []) := by
  rw [matchAt, matchHead_exact m _ hm hmw, Option.some_bind]
  try dsimp only
  rw [matchCols_exact c1 c2 _ hc1 hc2, Option.some_bind]
  try dsimp only
  rw [matchGasTail_exact g hg hgd, Option.some_bind]

theorem findAll_exact (m c1 c2 g : List Char) (hm : m ≠ [])
    (hmw : ∀ c ∈ m, isWordCh c = true)
    (hc1 : ∀ c ∈ c1, nonMiddot c = true) (hc2 : ∀ c ∈ c2, nonMiddot c = true)
    (hg : g ≠ []) (hgd : ∀ c ∈ g, isDigitCh c = true) :
    findAll ('|' :: ' ' :: 'N' :: 'M' :: 'F' :: 'T' :: ' ' :: '·' :: ' ' ::
      (m ++ ' ' :: '·' :: (' ' :: (c1 ++ ' ' :: '·' ::
        (' ' :: (c2 ++ ' ' :: '·' :: (' ' :: (g ++ [' ', '·'])))))))) =
      [(m, g)] := by
  rw [findAll_cons, matchAt_exact m c1 c2 g hm hmw hc1 hc2 hg hgd]
  rfl

theorem parseLine_exact (m c1 c2 g : List Char) (hm : m ≠ [])
    (hmw : ∀ c ∈ m, isWordCh c = true)
    (hc1 : ∀ c ∈ c1, nonMiddot c = true) (hc2 : ∀ c ∈ c2, nonMiddot c = true)
    (hg : g ≠ []) (hgd : ∀ c ∈ g, isDigitCh c = true) :
    parseLineChars ('|' :: ' ' :: 'N' :: 'M' :: 'F' :: 'T' :: ' ' :: '·' :: ' ' ::
      (m ++ ' ' :: '·' :: (' ' :: (c1 ++ ' ' :: '·' ::
        (' ' :: (c2 ++ ' ' :: '·' :: (' ' :: (g ++ [' ', '·'])))))))) =
      [{ method := String.mk m, avg_gas := digitsToNat g }] := by
  rw [parseLineChars, findAll_exact m c1 c2 g hm hmw hc1 hc2 hg hgd]
  rfl

theorem expectCh_src {a : Char} {l r : List Char} (h : expectCh a l = some r) :
    l = a :: r := by
  cases l with
  | nil => simp [expectCh] at h
  | cons c cs =>
    simp only [expectCh] at h
    split at h
    · rename_i hc
      cases h
      rw [hc]
    · cases h

theorem expectLit_src {t l r : List Char} (h : expectLit t l = some r) :
    l = t ++ r := by
  induction t generalizing l with
  | nil => simp only [expectLit, Option.some.injEq] at h; simp [h]
  | cons a as ih =>
    cases l with
    | nil => simp [expectLit] at h
    | cons c cs =>
      simp only [expectLit] at h
      split at h
      · rename_i hc
        rw [hc, List.cons_append, ih h]
      · cases h

theorem munch1_src {p : Char → Bool} {l : List Char} {s : List Char × List Char}
    (h : munch1 p l = some s) : l = s.1 ++ s.2 := by
  obtain ⟨h1, h2, -⟩ := munch1_eq h
  rw [h1, h2, List.takeWhile_append_dropWhile]

theorem hasNMFT_append (xs ys : List Char) :
    hasNMFT (xs ++ 'N' :: 'M' :: 'F' :: 'T' :: ys) = true := by
  induction xs with
  | nil => simp [hasNMFT, startsNMFT]
  | cons x xs ih => simp [hasNMFT, ih]

theorem matchHead_NMFT {l : List Char} {a : List Char × List Char}
    (h : matchHead l = some a) : hasNMFT l = true := by
  unfold matchHead at h
  obtain ⟨l1, h1, h⟩ := Option.bind_eq_some.mp h
  obtain ⟨s1, h2, h⟩ := Option.bind_eq_some.mp h
  obtain ⟨l2, h3, -⟩ := Option.bind_eq_some.mp h
  rw [expectCh_src h1, munch1_src h2, expectLit_src h3]
  have hshape : '|' :: (s1.1 ++ (['N', 'M', 'F', 'T'] ++ l2))
      = ('|' :: s1.1) ++ 'N' :: 'M' :: 'F' :: 'T' :: l2 := by
    simp
  rw [hshape]
  exact hasNMFT_append ('|' :: s1.1) l2

theorem matchAt_NMFT {l : List Char} {out : List Char × List Char × List Char}
    (h : matchAt l = some out) : hasNMFT l = true := by
  unfold matchAt at h
  obtain ⟨a, h1, -⟩ := Option.bind_eq_some.mp h
  exact matchHead_NMFT h1

/-- A line in which `NMFT` never occurs has no match at all. -/
theorem findAll_no_NMFT {l : List Char} (h : hasNMFT l = false) :
    findAll l = [] := by
  induction l with
  | nil => rfl
  | cons c cs ih =>
    rw [findAll_cons]
    cases hm : matchAt (c :: cs) with
    | some out => exact absurd (matchAt_NMFT hm) (by simp [h])
    | none =>
      have hcs : hasNMFT cs = false := by
        have hh := h
        rw [hasNMFT] at hh
        exact (Bool.or_eq_false_iff.mp hh).2
      exact ih hcs

theorem parseLineChars_no_NMFT {l : List Char} (h : hasNMFT l = false) :
    parseLineChars l = [] := by
  rw [parseLineChars, findAll_no_NMFT h]
  rfl

theorem gasLine_data (m c1 c2 g : String) :
    (gasLine m c1 c2 g).data =
      '|' :: ' ' :: 'N' :: 'M' :: 'F' :: 'T' :: ' ' :: '·' :: ' ' ::
        (m.data ++ ' ' :: '·' :: (' ' :: (c1.data ++ ' ' :: '·' ::
          (' ' :: (c2.data ++ ' ' :: '·' :: (' ' :: (g.data ++ [' ', '·'])))))))
    := by
  have h1 : "| NMFT · ".data = ['|', ' ', 'N', 'M', 'F', 'T', ' ', '·', ' '] := rfl
  have h2 : " · ".data = [' ', '·', ' '] := rfl
  have h3 : " ·".data = [' ', '·'] := rfl
  simp [gasLine, String.data_append, h1, h2, h3]

theorem splitLines_append (l1 l2 : List Char) (h : ∀ c ∈ l1, c ≠ '\n') :
    splitLines (l1 ++ '\n' :: l2) = l1 :: splitLines l2 := by
  induction l1 with
  | nil => simp [splitLines]
  | cons x xs ih =>
    have hx : x ≠ '\n' := h x (by simp)
    have hrest : ∀ c ∈ xs, c ≠ '\n' := fun c hc => h c (by simp [hc])
    rw [List.cons_append, splitLines, if_neg hx, ih hrest]

/-- `parse_output` really is line-by-line: a newline splits the work into
the records of the first line followed by the records of the remaining
text. -/
theorem parse_output_append (l1 : List Char) (s2 : String)
    (h : ∀ c ∈ l1, c ≠ '\n') :
    parse_output (String.mk (l1 ++ '\n' :: s2.data)) =
      parseLineChars l1 ++ parse_output s2 := by
  show ((splitLines (l1 ++ '\n' :: s2.data)).map parseLineChars).flatten = _
  rw [splitLines_append l1 s2.data h, List.map_cons, List.flatten_cons]
  rfl

/-! Shape invariants of parsed records, and the concrete worlds used to
exercise the driver. -/

theorem matchHead_method {l : List Char} {a : List Char × List Char}
    (h : matchHead l = some a) :
    a.1 ≠ [] ∧ ∀ c ∈ a.1, isWordCh c = true := by
  unfold matchHead at h
  obtain ⟨l1, h1, h⟩ := Option.bind_eq_some.mp h
  obtain ⟨s1, h2, h⟩ := Option.bind_eq_some.mp h
  obtain ⟨l2, h3, h⟩ := Option.bind_eq_some.mp h
  obtain ⟨s2, h4, h⟩ := Option.bind_eq_some.mp h
  obtain ⟨l3, h5, h⟩ := Option.bind_eq_some.mp h
  obtain ⟨s3, h6, h⟩ := Option.bind_eq_some.mp h
  obtain ⟨mth, h7, h⟩ := Option.bind_eq_some.mp h
  obtain ⟨s4, h8, h⟩ := Option.bind_eq_some.mp h
  obtain ⟨l4, h9, h⟩ := Option.bind_eq_some.mp h
  cases h
  obtain ⟨hm1, -, hm3⟩ := munch1_eq h7
  constructor
  · exact hm1 ▸ hm3
  · intro c hc
    rw [hm1] at hc
    exact List.mem_takeWhile_imp hc

theorem matchAt_method {l : List Char} {out : List Char × List Char × List Char}
    (h : matchAt l = some out) :
    out.1 ≠ [] ∧ ∀ c ∈ out.1, isWordCh c = true := by
  unfold matchAt at h
  obtain ⟨a, h1, h⟩ := Option.bind_eq_some.mp h
  obtain ⟨r, h2, h⟩ := Option.bind_eq_some.mp h
  obtain ⟨b, h3, h⟩ := Option.bind_eq_some.mp h
  cases h
  exact matchHead_method h1

theorem findAll_method_aux :
    ∀ (n : Nat) (l : List Char), l.length ≤ n →
      ∀ p ∈ findAll l, p.1 ≠ [] ∧ ∀ c ∈ p.1, isWordCh c = true := by
  intro n
  induction n with
  | zero =>
    intro l hl p hp
    have : l = [] := List.eq_nil_of_length_eq_zero (Nat.le_zero.mp hl)
    subst this
    simp [findAll_nil] at hp
  | succ n ih =>
    intro l hl p hp
    cases l with
    | nil => simp [findAll_nil] at hp
    | cons c cs =>
      rw [findAll_cons] at hp
      cases hm : matchAt (c :: cs) with
      | some out =>
        rw [hm] at hp
        simp only [List.mem_cons] at hp
        rcases hp with rfl | hp
        · exact matchAt_method hm
        · have hlt := matchAt_length hm
          simp only [List.length_cons] at hl hlt
          exact ih out.2.2 (by omega) p hp
      | none =>
        rw [hm] at hp
        simp only [List.length_cons] at hl
        exact ih cs (by omega) p hp

theorem findAll_method {l : List Char} {p : List Char × List Char}
    (hp : p ∈ findAll l) : p.1 ≠ [] ∧ ∀ c ∈ p.1, isWordCh c = true :=
  findAll_method_aux l.length l le_rfl p hp

/-- Every record `parse_output` produces carries a nonempty all-word-chars
method name. -/
theorem parse_output_method {out : String} {r : GasRecord}
    (hr : r ∈ parse_output out) :
    r.method.data ≠ [] ∧ ∀ c ∈ r.method.data, isWordCh c = true := by
  obtain ⟨chunk, hc, hrc⟩ := List.mem_flatten.mp hr
  obtain ⟨line, -, rfl⟩ := List.mem_map.mp hc
  obtain ⟨p, hp, rfl⟩ := List.mem_map.mp hrc
  exact findAll_method hp

theorem runRecords_size {w : World} {grep : Option String} {s : Nat}
    {r : SizedRecord} (h : r ∈ runRecords w grep s) : r.size = s := by
  obtain ⟨r0, -, rfl⟩ := List.mem_map.mp h
  rfl

theorem mem_sweep_flatten {w : World} {grep : Option String} {sizes : List Nat}
    {r : SizedRecord} (h : r ∈ (sizes.map (runRecords w grep)).flatten) :
    ∃ s ∈ sizes, r.size = s := by
  obtain ⟨chunk, hc, hrc⟩ := List.mem_flatten.mp h
  obtain ⟨s, hs, rfl⟩ := List.mem_map.mp hc
  exact ⟨s, hs, runRecords_size hrc⟩

theorem sizes_pairwise (w : World) (grep : Option String) :
    ∀ sizes : List Nat, sizes.Pairwise (fun a b => a ≤ b) →
      (((sizes.map (runRecords w grep)).flatten).map fun r => r.size).Pairwise
        (fun a b => a ≤ b) := by
  intro sizes hs
  induction sizes with
  | nil => simp
  | cons s rest ih =>
    rw [List.map_cons, List.flatten_cons, List.map_append, List.pairwise_append]
    have hall : ∀ x ∈ (runRecords w grep s).map (fun r => r.size), x = s := by
      intro x hx
      obtain ⟨r, hr, rfl⟩ := List.mem_map.mp hx
      exact runRecords_size hr
    refine ⟨?_, ih (List.Pairwise.of_cons hs), ?_⟩
    · apply List.pairwise_of_forall_mem_list
      intro a ha b hb
      rw [hall a ha, hall b hb]
    · intro x hx y hy
      obtain ⟨r, hr, rfl⟩ := List.mem_map.mp hy
      obtain ⟨s2, hs2, hsize⟩ := mem_sweep_flatten hr
      rw [hall x hx, hsize]
      exact (List.pairwise_cons.mp hs).1 s2 hs2

theorem cleanCall_args_ne_testCommand (grep : Option String) :
    cleanCall.args ≠ testCommand grep := by
  intro h
  simp [cleanCall, testCommand] at h

theorem filter_test_calls (grep : Option String) (sizes : List Nat) :
    ((sizes.map fun s => [cleanCall, testCall s grep]).flatten.filter
      fun c => c.args == testCommand grep) =
      sizes.map fun s =>
        { args := testCommand grep, batchNumber := some (toString s) } := by
  induction sizes with
  | nil => rfl
  | cons s rest ih =>
    have hclean : (cleanCall.args == testCommand grep) = false :=
      beq_eq_false_iff_ne.mpr (cleanCall_args_ne_testCommand grep)
    have htest : ((testCall s grep).args == testCommand grep) = true :=
      beq_self_eq_true (testCommand grep)
    simp only [List.map_cons, List.flatten_cons, List.cons_append, List.nil_append,
      List.filter_cons, hclean, htest, if_neg Bool.false_ne_true, ih]
    rfl

theorem filter_size_flatten (w : World) (grep : Option String) :
    ∀ sizes : List Nat, sizes.Nodup → ∀ s ∈ sizes,
      ((sizes.map (runRecords w grep)).flatten.filter fun r => r.size == s) =
        runRecords w grep s := by
  intro sizes
  induction sizes with
  | nil => intro _ s hs; simp at hs
  | cons s0 rest ih =>
    intro hnd s hs
    have hnotin : s0 ∉ rest := (List.nodup_cons.mp hnd).1
    rw [List.map_cons, List.flatten_cons, List.filter_append]
    rcases List.mem_cons.mp hs with rfl | hsr
    · have hleft : (runRecords w grep s).filter (fun r => r.size == s) =
          runRecords w grep s := by
        apply List.filter_eq_self.mpr
        intro r hr
        simp [runRecords_size hr]
      have hright : ((rest.map (runRecords w grep)).flatten.filter
          fun r => r.size == s) = [] := by
        apply List.filter_eq_nil_iff.mpr
        intro r hr
        obtain ⟨s2, hs2, hsize⟩ := mem_sweep_flatten hr
        have hne : r.size ≠ s := by
          rw [hsize]
          intro hq
          exact hnotin (hq ▸ hs2)
        simp [hne]
      rw [hleft, hright, List.append_nil]
    · have hleft : (runRecords w grep s0).filter (fun r => r.size == s) = [] := by
        apply List.filter_eq_nil_iff.mpr
        intro r hr
        have hrs := runRecords_size hr
        have hne : r.size ≠ s := by
          rw [hrs]
          intro hq
          exact hnotin (hq ▸ hsr)
        simp [hne]
      rw [hleft, List.nil_append]
      exact ih (List.nodup_cons.mp hnd).2 s hsr

/-! The claims. -/

/-- Claim C1: `parse_output` scans its input line by line with the fixed
regular expression: splitting the text at a newline splits the extracted
record list accordingly; a line of the form
`| NMFT · <method> · <col> · <col> · <gas> ·` — method a nonempty
word-character identifier, gas a nonempty digit string, the two skipped
columns free of `·` — contributes exactly one record holding the matched
method and the integer value of the matched digits; and a line in which
`NMFT` does not even occur contributes no record. -/
theorem C1_parse_output_extraction :
    (∀ output : String,
      parse_output output = ((splitLines output.data).map parseLineChars).flatten)
    ∧ (∀ (l1 : List Char) (s2 : String), (∀ c ∈ l1, c ≠ '\n') →
        parse_output (String.mk (l1 ++ '\n' :: s2.data)) =
          parseLineChars l1 ++ parse_output s2)
    ∧ (∀ m c1 c2 g : String,
        m.data ≠ [] → (∀ c ∈ m.data, isWordCh c = true) →
        (∀ c ∈ c1.data, nonMiddot c = true) → (∀ c ∈ c2.data, nonMiddot c = true) →
        g.data ≠ [] → (∀ c ∈ g.data, isDigitCh c = true) →
        parseLineChars (gasLine m c1 c2 g).data =
          [{ method := m, avg_gas := digitsToNat g.data }])
    ∧ (∀ line : List Char, hasNMFT line = false → parseLineChars line = []) := by
  refine ⟨fun _ => rfl, fun l1 s2 h => parse_output_append l1 s2 h, ?_,
    fun line h => parseLineChars_no_NMFT h⟩
  intro m c1 c2 g hm hmw hc1 hc2 hg hgd
  rw [gasLine_data, parseLine_exact m.data c1.data c2.data g.data hm hmw hc1 hc2 hg hgd]

/-- Witness for C1 at concrete inputs. -/
theorem C1_parse_output_extraction_witness :
    parse_output (String.mk ("xx".data ++ '\n' :: "yy".data)) =
      parseLineChars "xx".data ++ parse_output "yy"
    ∧ parseLineChars (gasLine "mintNFT" "3" "-" "123456").data =
        [{ method := "mintNFT", avg_gas := 123456 }]
    ∧ parseLineChars "no gas table here".data = [] := by
  refine ⟨C1_parse_output_extraction.2.1 "xx".data "yy" (by decide), ?_,
    C1_parse_output_extraction.2.2.2 "no gas table here".data (by decide)⟩
  rw [C1_parse_output_extraction.2.2.1 "mintNFT" "3" "-" "123456"
    (by decide) (by decide) (by decide) (by decide) (by decide) (by decide)]
  decide

/-- Claim C2 (amended): only the `npx hardhat clean` invocation runs with
`check=True`: if it exits non-zero, `run_test` raises `CalledProcessError`
immediately and the whole sweep aborts with that exception.  The test
command itself runs without `check`, so its exit status is never examined
and its captured stdout is returned regardless. -/
theorem C2_clean_failure_aborts (w : World) (size : Nat) (grep : Option String)
    (h : (w cleanCall).exitCode ≠ 0) :
    (run_test w size grep).1 =
      Except.error (PyExc.calledProcessError (w cleanCall).exitCode cleanCall.args)
    ∧ (collect_data w grep).1 =
      Except.error (PyExc.calledProcessError (w cleanCall).exitCode cleanCall.args)
    ∧ (∀ w2 : World, (w2 cleanCall).exitCode = 0 →
        (run_test w2 size grep).1 = Except.ok ((w2 (testCall size grep)).stdout)) := by
  refine ⟨?_, ?_, ?_⟩
  · exact congrArg Prod.fst (run_test_of_clean_fail h size grep)
  · exact congrArg Prod.fst (collect_data_clean_fail h grep)
  · intro w2 h2
    exact congrArg Prod.fst (run_test_of_clean_ok h2 size grep)

/-- Witness for C2 (amended) at a concrete failing-clean world. -/
theorem C2_clean_failure_aborts_witness :
    (failWorld cleanCall).exitCode ≠ 0
    ∧ (run_test failWorld 100 none).1 =
        Except.error
          (PyExc.calledProcessError (failWorld cleanCall).exitCode cleanCall.args)
    ∧ (collect_data failWorld none).1 =
        Except.error
          (PyExc.calledProcessError (failWorld cleanCall).exitCode cleanCall.args) :=
  ⟨by decide, (C2_clean_failure_aborts failWorld 100 none (by decide)).1,
    (C2_clean_failure_aborts failWorld 100 none (by decide)).2.1⟩

/-- Counterexample to C2 as stated: a world where the test command exits 1,
yet `run_test` returns its stdout as a success instead of raising. -/
theorem C2_test_failure_ignored :
    (testFailWorld (testCall 100 none)).exitCode = 1
    ∧ (run_test testFailWorld 100 none).1 = Except.ok "boom" := by
  constructor <;> decide

/-- Claim C3 (amended): when the clean command succeeds and no line of any
run's output matches the pattern, `collect_data` raises nothing and simply
returns the empty record list — malformed output is not an error. -/
theorem C3_empty_matches_continue (w : World) (grep : Option String)
    (h0 : (w cleanCall).exitCode = 0)
    (h1 : ∀ s ∈ sweepSizes, parse_output ((w (testCall s grep)).stdout) = []) :
    (collect_data w grep).1 = Except.ok [] := by
  rw [congrArg Prod.fst (collect_data_ok h0 grep)]
  have hall : ∀ x ∈ sweepSizes.map (runRecords w grep), x = ([] : List SizedRecord) := by
    intro x hx
    obtain ⟨s, hs, rfl⟩ := List.mem_map.mp hx
    rw [runRecords, h1 s hs]
    rfl
  rw [List.flatten_eq_nil_iff.mpr hall]

/-- Witness for C3 (amended) at a concrete matchless world. -/
theorem C3_empty_matches_continue_witness :
    (emptyWorld cleanCall).exitCode = 0
    ∧ (collect_data emptyWorld none).1 = Except.ok [] :=
  ⟨by decide, C3_empty_matches_continue emptyWorld none (by decide) (by decide)⟩

/-- Counterexample to C3 as stated: a concrete sweep whose outputs contain
zero matches completes with `ok []`; no exception terminates the run. -/
theorem C3_no_exception_on_empty :
    parse_output "no gas table here" = []
    ∧ (collect_data emptyWorld none).1 = Except.ok [] := by
  constructor <;> decide

/-- Claim C4: the sweep visits exactly the sizes 100, 200, …, 1000
(`MAX_SIZE` included), in increasing order, and issues the external test
command exactly once per size, each time with the `BATCH_NUMBER`
environment entry set to the decimal rendering of that size. -/
theorem C4_sweep_invocations (w : World) (grep : Option String)
    (h : (w cleanCall).exitCode = 0) :
    sweepSizes = [100, 200, 300, 400, 500, 600, 700, 800, 900, 1000]
    ∧ (collect_data w grep).2 =
        (sweepSizes.map fun s => [cleanCall, testCall s grep]).flatten
    ∧ ((collect_data w grep).2.filter fun c => c.args == testCommand grep) =
        sweepSizes.map fun s =>
          { args := testCommand grep, batchNumber := some (toString s) } := by
  refine ⟨sweepSizes_eq, congrArg Prod.snd (collect_data_ok h grep), ?_⟩
  rw [congrArg Prod.snd (collect_data_ok h grep)]
  exact filter_test_calls grep sweepSizes

/-- Witness for C4 at a concrete world. -/
theorem C4_sweep_invocations_witness :
    (okWorld cleanCall).exitCode = 0
    ∧ ((collect_data okWorld none).2.filter fun c => c.args == testCommand none) =
        sweepSizes.map fun s =>
          { args := testCommand none, batchNumber := some (toString s) } :=
  ⟨by decide, (C4_sweep_invocations okWorld none (by decide)).2.2⟩

/-- Claim C5: every record parsed from the run at size `s` is stamped with
`size = s`, and the per-run record lists are concatenated into one list in
run order, the parsed order preserved inside each run. -/
theorem C5_records_tagged (w : World) (grep : Option String)
    (h : (w cleanCall).exitCode = 0) :
    (collect_data w grep).1 =
      Except.ok ((sweepSizes.map fun s =>
        (parse_output ((w (testCall s grep)).stdout)).map (stampSize s)).flatten) :=
  congrArg Prod.fst (collect_data_ok h grep)

/-- Witness for C5 at a concrete world. -/
theorem C5_records_tagged_witness :
    (okWorld cleanCall).exitCode = 0
    ∧ (collect_data okWorld none).1 =
        Except.ok ((sweepSizes.map fun s =>
          (parse_output ((okWorld (testCall s none)).stdout)).map (stampSize s)).flatten) :=
  ⟨by decide, C5_records_tagged okWorld none (by decide)⟩

/-- Claim C6 (amended): for each sweep size `s`, the records carrying
`size = s` are exactly the records parsed from that size's output, one per
matched occurrence — so a method matched `k` times in one output yields
`k` records with the same (method, size) pair; uniqueness per
(method, size) holds only when each method matches at most once per output
and is not enforced by the code. -/
theorem C6_per_size_records (w : World) (grep : Option String)
    (h : (w cleanCall).exitCode = 0) (s : Nat) (hs : s ∈ sweepSizes)
    (l : List SizedRecord) (hl : (collect_data w grep).1 = Except.ok l) :
    l.filter (fun r => r.size == s) =
      (parse_output ((w (testCall s grep)).stdout)).map (stampSize s) := by
  have hc := congrArg Prod.fst (collect_data_ok h grep)
  have hleq : l = (sweepSizes.map (runRecords w grep)).flatten :=
    Except.ok.inj (hl.symm.trans hc)
  subst hleq
  have hnd : sweepSizes.Nodup := by rw [sweepSizes_eq]; decide
  exact filter_size_flatten w grep sweepSizes hnd s hs

/-- Witness for C6 (amended) at a concrete world. -/
theorem C6_per_size_records_witness :
    100 ∈ sweepSizes
    ∧ ((okOr ((collect_data dupWorld none).1)).filter fun r => r.size == 100) =
        (parse_output ((dupWorld (testCall 100 none)).stdout)).map (stampSize 100) :=
  ⟨by decide,
    C6_per_size_records dupWorld none (by decide) 100 (by decide)
      (okOr ((collect_data dupWorld none).1)) (by decide)⟩

/-- Counterexample to C6 as stated: a world whose output matches the same
method twice at one size, producing two records with the same
(method, size) pair instead of exactly one. -/
theorem C6_duplicate_records :
    (parse_output ((dupWorld (testCall 100 none)).stdout)).countP
        (fun r => r.method == "mintNFT") = 2
    ∧ ((okOr ((collect_data dupWorld none).1)).countP
        fun r => r.method == "mintNFT" && r.size == 100) = 2 := by
  constructor <;> decide

/-- Claim C7: `save_to_csv` writes the fixed header line
`method,size,avg_gas` (that column order) first, followed by exactly one
CSV row per record in input-list order, and `main` writes this text to the
file named `gas_results.csv`. -/
theorem C7_csv_format (data : List SizedRecord) (w : World) (grep : Option String) :
    save_to_csv data =
      String.mk ("method,size,avg_gas\r\n".data ++ (data.map csvRowChars).flatten)
    ∧ (∀ d : List SizedRecord, (collect_data w grep).1 = Except.ok d →
        main_csv w grep = Except.ok ("gas_results.csv", save_to_csv d)) := by
  refine ⟨save_to_csv_eq data, ?_⟩
  intro d hd
  simp only [main_csv, hd]

/-- Witness for C7 at concrete inputs. -/
theorem C7_csv_format_witness :
    save_to_csv [{ method := "a", avg_gas := 5, size := 100 }] =
      String.mk ("method,size,avg_gas\r\n".data ++
        ([{ method := "a", avg_gas := 5, size := 100 }].map csvRowChars).flatten)
    ∧ main_csv emptyWorld none = Except.ok ("gas_results.csv", save_to_csv []) :=
  ⟨(C7_csv_format [{ method := "a", avg_gas := 5, size := 100 }] emptyWorld none).1,
    (C7_csv_format [] emptyWorld none).2 [] (by decide)⟩

/-- Claim C9 (amended): the CLI's one optional flag is the grep filter; a
nonempty value is appended unchanged as `['--grep', value]` to the test
command line; when the flag is absent — or supplied as the empty string,
which Python's truthiness test treats like absence — no filter argument is
added.  The resulting command is exactly what `run_test` hands to the
subprocess. -/
theorem C9_grep_flag (w : World) (size : Nat) (h : (w cleanCall).exitCode = 0) :
    testCommand none = ["npx", "hardhat", "test"]
    ∧ (∀ g : String, g ≠ "" →
        testCommand (some g) = ["npx", "hardhat", "test", "--grep", g])
    ∧ testCommand (some "") = ["npx", "hardhat", "test"]
    ∧ (∀ grep : Option String, (run_test w size grep).2 =
        [cleanCall, { args := testCommand grep, batchNumber := some (toString size) }]) := by
  refine ⟨by decide, ?_, by decide, ?_⟩
  · intro g hg
    simp [testCommand, hg]
  · intro grep
    exact congrArg Prod.snd (run_test_of_clean_ok h size grep)

/-- Witness for C9 (amended) at concrete inputs. -/
theorem C9_grep_flag_witness :
    testCommand (some "mint") = ["npx", "hardhat", "test", "--grep", "mint"]
    ∧ (run_test okWorld 100 (some "mint")).2 =
        [cleanCall,
         { args := testCommand (some "mint"), batchNumber := some (toString 100) }] :=
  ⟨(C9_grep_flag okWorld 100 (by decide)).2.1 "mint" (by decide),
    (C9_grep_flag okWorld 100 (by decide)).2.2.2 (some "mint")⟩

/-- Counterexample to C9 as stated: supplying the flag with the empty
string passes nothing through — the command line carries no `--grep`
argument at all. -/
theorem C9_empty_grep_dropped :
    testCommand (some "") = ["npx", "hardhat", "test"]
    ∧ (run_test okWorld 100 (some "")).2 =
        [cleanCall,
         { args := ["npx", "hardhat", "test"], batchNumber := some "100" }] := by
  constructor <;> decide

/-- Claim C10: every record `collect_data` returns has exactly the three
fields of `SizedRecord`: a nonempty all-word-character method name, a
nonnegative gas amount (`avg_gas : Nat`, the value of the matched digits),
and a size drawn from the swept values 100, 200, …, 1000; and the list is
grouped by size in nondecreasing order. -/
theorem C10_record_invariants (w : World) (grep : Option String)
    (l : List SizedRecord) (h : (w cleanCall).exitCode = 0)
    (hl : (collect_data w grep).1 = Except.ok l) :
    (∀ r ∈ l, r.method.data ≠ []
      ∧ (∀ c ∈ r.method.data, isWordCh c = true)
      ∧ r.size ∈ sweepSizes)
    ∧ (l.map fun r => r.size).Pairwise fun a b => a ≤ b := by
  have hc := congrArg Prod.fst (collect_data_ok h grep)
  have hleq : l = (sweepSizes.map (runRecords w grep)).flatten :=
    Except.ok.inj (hl.symm.trans hc)
  subst hleq
  constructor
  · intro r hr
    obtain ⟨chunk, hchunk, hrc⟩ := List.mem_flatten.mp hr
    obtain ⟨s, hs, rfl⟩ := List.mem_map.mp hchunk
    obtain ⟨r0, hr0, rfl⟩ := List.mem_map.mp hrc
    have hm := parse_output_method hr0
    exact ⟨hm.1, hm.2, hs⟩
  · exact sizes_pairwise w grep sweepSizes (by rw [sweepSizes_eq]; decide)

/-- Witness for C10 at a concrete world. -/
theorem C10_record_invariants_witness :
    (okWorld cleanCall).exitCode = 0
    ∧ ((∀ r ∈ okOr ((collect_data okWorld none).1), r.method.data ≠ []
        ∧ (∀ c ∈ r.method.data, isWordCh c = true)
        ∧ r.size ∈ sweepSizes)
      ∧ ((okOr ((collect_data okWorld none).1)).map fun r => r.size).Pairwise
          fun a b => a ≤ b) :=
  ⟨by decide,
    C10_record_invariants okWorld none (okOr ((collect_data okWorld none).1))
      (by decide) (by decide)⟩

theorem parseCellQ_length :
    ∀ (n : Nat) (l : List Char), l.length ≤ n →
      ∀ p, parseCellQ l = some p → p.2.length ≤ l.length := by
  intro n
  induction n with
  | zero =>
    intro l hl p hp
    have : l = [] := List.eq_nil_of_length_eq_zero (Nat.le_zero.mp hl)
    subst this
    cases hp
  | succ n ih =>
    intro l hl p hp
    cases l with
    | nil => cases hp
    | cons c rest =>
      cases rest with
      | nil =>
        simp only [parseCellQ] at hp
        split at hp
        · cases hp
          simp
        · cases hp
      | cons d rest2 =>
        simp only [parseCellQ] at hp
        split at hp
        · split at hp
          · obtain ⟨q, hq, hpq⟩ := Option.map_eq_some'.mp hp
            simp only [List.length_cons] at hl
            have hq2 := ih rest2 (by omega) q hq
            subst hpq
            simp only [List.length_cons]
            omega
          · cases hp
            simp
        · obtain ⟨q, hq, hpq⟩ := Option.map_eq_some'.mp hp
          simp only [List.length_cons] at hl
          have hq2 := ih (d :: rest2) (by simp only [List.length_cons] at *; omega) q hq
          subst hpq
          simp only [List.length_cons] at hq2 ⊢
          omega

theorem parseCell_length {l : List Char} {p : List Char × List Char}
    (h : parseCell l = some p) : p.2.length ≤ l.length := by
  cases l with
  | nil => cases h; simp
  | cons c rest =>
    simp only [parseCell] at h
    split at h
    · have := parseCellQ_length rest.length rest le_rfl p h
      simp only [List.length_cons]
      omega
    · cases h
      have := munch0_length csvPlainCh (c :: rest)
      omega

theorem endRecord_length {l r : List Char} (h : endRecord l = some r) :
    r.length ≤ l.length := by
  cases l with
  | nil => cases h; simp
  | cons c rest =>
    cases rest with
    | nil => cases h
    | cons d rest2 =>
      simp only [endRecord] at h
      split at h
      · cases h
        simp only [List.length_cons]
        omega
      · cases h

theorem parseRecord3_length {l : List Char}
    {pr : (List Char × List Char × List Char) × List Char}
    (h : parseRecord3 l = some pr) : pr.2.length < l.length := by
  unfold parseRecord3 at h
  obtain ⟨p1, h1, h⟩ := Option.bind_eq_some.mp h
  obtain ⟨r1, h2, h⟩ := Option.bind_eq_some.mp h
  obtain ⟨p2, h3, h⟩ := Option.bind_eq_some.mp h
  obtain ⟨r2, h4, h⟩ := Option.bind_eq_some.mp h
  obtain ⟨p3, h5, h⟩ := Option.bind_eq_some.mp h
  obtain ⟨rest, h6, hpr⟩ := Option.map_eq_some'.mp h
  have e1 := parseCell_length h1
  have e2 := expectCh_length h2
  have e3 := parseCell_length h3
  have e4 := expectCh_length h4
  have e5 := parseCell_length h5
  have e6 := endRecord_length h6
  subst hpr
  dsimp only
  omega

theorem parseRecordsF_fuel {n : Nat} {l : List Char} (h : l.length ≤ n) (m : Nat)
    (hm : l.length ≤ m) : parseRecordsF n l = parseRecordsF m l := by
  induction n generalizing l m with
  | zero =>
    cases l with
    | nil => cases m <;> rfl
    | cons c cs => simp at h
  | succ n ih =>
    cases l with
    | nil => cases m <;> rfl
    | cons c cs =>
      cases m with
      | zero => simp at hm
      | succ m =>
        cases hpr : parseRecord3 (c :: cs) with
        | some pr =>
          have hlt := parseRecord3_length hpr
          simp only [List.length_cons] at h hm hlt
          simp only [parseRecordsF, hpr, Option.some_bind]
          rw [ih (by omega) m (by omega)]
        | none => simp only [parseRecordsF, hpr, Option.none_bind]

theorem parseAllRecords_step (l : List Char) (hne : l ≠ [])
    {pr : (List Char × List Char × List Char) × List Char}
    (h : parseRecord3 l = some pr) :
    parseAllRecords l = (parseAllRecords pr.2).map fun rs => pr.1 :: rs := by
  cases l with
  | nil => exact absurd rfl hne
  | cons c cs =>
    show parseRecordsF (c :: cs).length (c :: cs) = _
    have hlt := parseRecord3_length h
    simp only [List.length_cons] at hlt
    simp only [List.length_cons, parseRecordsF, h, Option.some_bind]
    rw [parseRecordsF_fuel (l := pr.2) (by omega) pr.2.length le_rfl]
    rfl

theorem parseCellQ_close (rest : List Char) (h : headNot (fun c => c == '"') rest) :
    parseCellQ ('"' :: rest) = some ([], rest) := by
  cases rest with
  | nil => rfl
  | cons d rest2 =>
    have h2 : (d == '"') = false := h
    have hd : d ≠ '"' := by simpa using h2
    simp [parseCellQ, hd]

theorem parseCellQ_escaped (t : List Char) :
    parseCellQ ('"' :: '"' :: t) = (parseCellQ t).map fun p => ('"' :: p.1, p.2) := by
  simp [parseCellQ]

theorem parseCellQ_cons_ne (c : Char) (t : List Char) (hc : c ≠ '"') (ht : t ≠ []) :
    parseCellQ (c :: t) = (parseCellQ t).map fun p => (c :: p.1, p.2) := by
  cases t with
  | nil => exact absurd rfl ht
  | cons d rest2 => simp [parseCellQ, hc]

theorem parseCellQ_escape (s rest : List Char) (h : headNot (fun c => c == '"') rest) :
    parseCellQ (escapeQuotes s ++ '"' :: rest) = some (s, rest) := by
  induction s with
  | nil =>
    simp only [escapeQuotes, List.flatMap_nil, List.nil_append]
    exact parseCellQ_close rest h
  | cons c s ih =>
    by_cases hc : c = '"'
    · subst hc
      rw [show escapeQuotes ('"' :: s) = '"' :: '"' :: escapeQuotes s from by
        simp [escapeQuotes]]
      rw [List.cons_append, List.cons_append, parseCellQ_escaped, ih]
      rfl
    · rw [show escapeQuotes (c :: s) = c :: escapeQuotes s from by
        simp [escapeQuotes, hc]]
      rw [List.cons_append, parseCellQ_cons_ne c _ hc (by simp), ih]
      rfl

theorem noQuote_plain {s : List Char} (h : needsQuote s = false) :
    (∀ c ∈ s, csvPlainCh c = true) ∧ headNot (fun c => c == '"') s := by
  have hall : ∀ c ∈ s, (c == ',' || c == '"' || c == '\r' || c == '\n') = false := by
    simpa [needsQuote, List.any_eq_false] using h
  constructor
  · intro c hc
    have h1 := hall c hc
    simp only [Bool.or_eq_false_iff] at h1
    simp [csvPlainCh, h1.1.1.1, h1.1.2, h1.2]
  · cases s with
    | nil => trivial
    | cons c s' =>
      have h1 := hall c (by simp)
      simp only [Bool.or_eq_false_iff] at h1
      exact h1.1.1.2

theorem parseCell_plain (s rest : List Char)
    (hall : ∀ c ∈ s, csvPlainCh c = true)
    (hq : headNot (fun c => c == '"') s)
    (hrest : headNot csvPlainCh rest) :
    parseCell (s ++ rest) = some (s, rest) := by
  cases s with
  | nil =>
    cases rest with
    | nil => rfl
    | cons d t =>
      have hd : csvPlainCh d = false := hrest
      have hdq : d ≠ '"' := by
        intro hcq
        subst hcq
        exact absurd hd (by decide)
      show parseCell (d :: t) = some ([], d :: t)
      simp only [parseCell, if_neg hdq]
      have h2 := munch0_exact csvPlainCh [] (d :: t) (by simp) hrest
      rw [List.nil_append] at h2
      rw [h2]
  | cons c s' =>
    have hq2 : (c == '"') = false := hq
    have hcq : c ≠ '"' := by simpa using hq2
    show parseCell (c :: (s' ++ rest)) = some (c :: s', rest)
    simp only [parseCell, if_neg hcq]
    have h2 := munch0_exact csvPlainCh (c :: s') rest hall hrest
    rw [List.cons_append] at h2
    rw [h2]

theorem parseCell_csvField (s rest : List Char)
    (hrest : headNot csvPlainCh rest)
    (hrq : headNot (fun c => c == '"') rest) :
    parseCell (csvField s ++ rest) = some (s, rest) := by
  by_cases hnq : needsQuote s = true
  · rw [csvField, if_pos hnq, List.cons_append, List.append_assoc,
      List.singleton_append]
    show parseCellQ (escapeQuotes s ++ '"' :: rest) = some (s, rest)
    exact parseCellQ_escape s rest hrq
  · have hnq' : needsQuote s = false := by simpa using hnq
    rw [csvField, if_neg hnq]
    obtain ⟨h1, h2⟩ := noQuote_plain hnq'
    exact parseCell_plain s rest h1 h2 hrest

theorem digits_plain {l : List Char} (h : l.all isDigitCh = true) :
    (∀ c ∈ l, csvPlainCh c = true) ∧ headNot (fun c => c == '"') l := by
  have hall : ∀ c ∈ l, isDigitCh c = true := by simpa [List.all_eq_true] using h
  constructor
  · intro c hc
    obtain ⟨h1, h2, h3, h4⟩ := digit_not_special (hall c hc)
    simp [csvPlainCh, h1, h2, h3]
  · cases l with
    | nil => trivial
    | cons c t =>
      obtain ⟨h1, h2, h3, h4⟩ := digit_not_special (hall c (by simp))
      show (c == '"') = false
      simpa using h4

theorem endRecord_crlf (rest : List Char) :
    endRecord ('\r' :: '\n' :: rest) = some rest := by
  simp [endRecord]

theorem csvRowChars_ne_nil (r : SizedRecord) : csvRowChars r ≠ [] := by
  simp [csvRowChars]

theorem parseRecord3_csvRow (r : SizedRecord) (rest : List Char) :
    parseRecord3 (csvRowChars r ++ rest) =
      some ((r.method.data, natToChars r.size, natToChars r.avg_gas), rest) := by
  have hd1 := digits_plain (natToChars_digits r.size)
  have hd2 := digits_plain (natToChars_digits r.avg_gas)
  have hc1 := parseCell_csvField r.method.data
      (',' :: (natToChars r.size ++ ',' :: (natToChars r.avg_gas ++ '\r' :: '\n' :: rest)))
      (show csvPlainCh ',' = false from by decide)
      (show (',' == '"') = false from by decide)
  have hc2 := parseCell_plain (natToChars r.size)
      (',' :: (natToChars r.avg_gas ++ '\r' :: '\n' :: rest)) hd1.1 hd1.2
      (show csvPlainCh ',' = false from by decide)
  have hc3 := parseCell_plain (natToChars r.avg_gas) ('\r' :: '\n' :: rest)
      hd2.1 hd2.2 (show csvPlainCh '\r' = false from by decide)
  have hshape : csvRowChars r ++ rest =
      csvField r.method.data ++
        (',' :: (natToChars r.size ++ ',' :: (natToChars r.avg_gas ++ '\r' :: '\n' :: rest))) := by
    simp [csvRowChars, List.append_assoc]
  rw [hshape]
  unfold parseRecord3
  rw [hc1]
  simp only [Option.some_bind]
  rw [expectCh_exact]
  simp only [Option.some_bind]
  rw [hc2]
  simp only [Option.some_bind]
  rw [expectCh_exact]
  simp only [Option.some_bind]
  rw [hc3]
  simp only [Option.some_bind]
  rw [endRecord_crlf]
  rfl

theorem parseRecord3_header (rest : List Char) :
    parseRecord3 ("method,size,avg_gas\r\n".data ++ rest) =
      some (("method".data, "size".data, "avg_gas".data), rest) := by
  have hc1 := parseCell_plain "method".data
      (',' :: ("size".data ++ ',' :: ("avg_gas".data ++ '\r' :: '\n' :: rest)))
      (by decide) (by decide) (show csvPlainCh ',' = false from by decide)
  have hc2 := parseCell_plain "size".data
      (',' :: ("avg_gas".data ++ '\r' :: '\n' :: rest))
      (by decide) (by decide) (show csvPlainCh ',' = false from by decide)
  have hc3 := parseCell_plain "avg_gas".data ('\r' :: '\n' :: rest)
      (by decide) (by decide) (show csvPlainCh '\r' = false from by decide)
  have hshape : "method,size,avg_gas\r\n".data ++ rest =
      "method".data ++
        (',' :: ("size".data ++ ',' :: ("avg_gas".data ++ '\r' :: '\n' :: rest))) := by
    rfl
  rw [hshape]
  unfold parseRecord3
  rw [hc1]
  simp only [Option.some_bind]
  rw [expectCh_exact]
  simp only [Option.some_bind]
  rw [hc2]
  simp only [Option.some_bind]
  rw [expectCh_exact]
  simp only [Option.some_bind]
  rw [hc3]
  simp only [Option.some_bind]
  rw [endRecord_crlf]
  rfl

theorem parseAllRecords_rows (rows : List SizedRecord) :
    parseAllRecords (rows.map csvRowChars).flatten =
      some (rows.map fun r => (r.method.data, natToChars r.size, natToChars r.avg_gas)) := by
  induction rows with
  | nil => rfl
  | cons r rows ih =>
    simp only [List.map_cons, List.flatten_cons]
    have hne : csvRowChars r ++ (rows.map csvRowChars).flatten ≠ [] := by
      intro hcontra
      exact csvRowChars_ne_nil r (List.append_eq_nil.mp hcontra).1
    rw [parseAllRecords_step _ hne (parseRecord3_csvRow r _)]
    dsimp only
    rw [ih]
    rfl

theorem readNatCol_natToChars (ns : List Nat) :
    readNatCol (ns.map natToChars) = some ns := by
  induction ns with
  | nil => rfl
  | cons n ns ih => simp [readNatCol, parseNatField_natToChars, ih]

theorem zipRecords_map (data : List SizedRecord) :
    zipRecords (data.map fun r => PdCell.vStr r.method) (data.map fun r => r.size)
        (data.map fun r => r.avg_gas) =
      data.map fun r =>
        ({ method := PdCell.vStr r.method, avg_gas := r.avg_gas, size := r.size } : PdRecord) := by
  induction data with
  | nil => rfl
  | cons r data ih => simp [zipRecords, ih]

theorem readMethodCol_text (data : List SizedRecord)
    (hna : ∀ r ∈ data, isNA r.method = false)
    (htext : data = [] ∨ ∃ r ∈ data, pdText r.method = true) :
    readMethodCol (data.map fun r => r.method) =
      some (data.map fun r => PdCell.vStr r.method) := by
  rcases htext with hnil | ⟨r0, hr0, hr0t⟩
  · subst hnil
    rfl
  · have hany : (data.map fun r => r.method).any pdText = true := by
      rw [List.any_eq_true]
      exact ⟨r0.method, List.mem_map_of_mem _ hr0, hr0t⟩
    unfold readMethodCol
    rw [if_pos hany, List.map_map]
    refine congrArg some (List.map_congr_left fun r hr => ?_)
    simp [Function.comp, hna r hr]

theorem pandas_roundtrip (data : List SizedRecord)
    (hna : ∀ r ∈ data, isNA r.method = false)
    (htext : data = [] ∨ ∃ r ∈ data, pdText r.method = true) :
    read_csv_records (save_to_csv data) =
      some (data.map fun r =>
        ({ method := PdCell.vStr r.method, avg_gas := r.avg_gas, size := r.size } : PdRecord)) := by
  rw [save_to_csv_eq]
  unfold read_csv_records
  rw [show (String.mk ("method,size,avg_gas\r\n".data ++ (data.map csvRowChars).flatten)).data
      = "method,size,avg_gas\r\n".data ++ (data.map csvRowChars).flatten from rfl]
  have hne : "method,size,avg_gas\r\n".data ++ (data.map csvRowChars).flatten ≠ [] := by
    rw [show "method,size,avg_gas\r\n".data = 'm' :: "ethod,size,avg_gas\r\n".data from rfl]
    simp
  rw [parseAllRecords_step _ hne (parseRecord3_header _)]
  dsimp only
  rw [parseAllRecords_rows data]
  simp only [Option.map_some', Option.some_bind]
  rw [readAfterParse, if_pos rfl]
  have hm : ((data.map fun r => (r.method.data, natToChars r.size, natToChars r.avg_gas)).map
      fun t => String.mk t.1) = data.map fun r => r.method := by
    rw [List.map_map]
    rfl
  have hs : ((data.map fun r => (r.method.data, natToChars r.size, natToChars r.avg_gas)).map
      fun t => t.2.1) = (data.map fun r => r.size).map natToChars := by
    rw [List.map_map, List.map_map]
    rfl
  have hg : ((data.map fun r => (r.method.data, natToChars r.size, natToChars r.avg_gas)).map
      fun t => t.2.2) = (data.map fun r => r.avg_gas).map natToChars := by
    rw [List.map_map, List.map_map]
    rfl
  rw [hm, hs, hg]
  simp only [readMethodCol_text data hna htext, readNatCol_natToChars, Option.some_bind,
    zipRecords_map]

/-- C8 counterexample: write-then-read does not reproduce every record.
Pandas default NA parsing turns an empty method cell into a missing value,
and dtype inference turns an all-numeric method column into numbers: the
record with method `""` reads back with method NaN, and the record with
method `"007"` reads back with method the integer 7, neither equal to the
original string. -/
theorem C8_method_column_mangled :
    read_csv_records (save_to_csv [{ method := "", avg_gas := 1, size := 100 }]) =
        some [{ method := PdCell.vNaN, avg_gas := 1, size := 100 }]
      ∧ read_csv_records (save_to_csv [{ method := "007", avg_gas := 1, size := 100 }]) =
        some [{ method := PdCell.vNum 7, avg_gas := 1, size := 100 }]
      ∧ PdCell.vNaN ≠ PdCell.vStr ""
      ∧ PdCell.vNum 7 ≠ PdCell.vStr "007" := by
  refine ⟨by decide, by decide, by decide, by decide⟩

/-- C8 (amended): writing a record list with `save_to_csv` and reading it
back as `plot_data_from_csv` does (`pd.read_csv` + `pd.to_numeric`)
reproduces exactly the same rows in the same order — method as the original
string, size and avg_gas as the original numbers — provided no method name
is a pandas default NA token and the list is empty or has at least one
method cell that pandas keeps as text, so the method column is inferred as
strings. Delimiters, quotes and newlines inside method names are fine: the
writer's quoting is inverted exactly. -/
theorem C8_pandas_roundtrip (data : List SizedRecord)
    (hna : ∀ r ∈ data, isNA r.method = false)
    (htext : data = [] ∨ ∃ r ∈ data, pdText r.method = true) :
    read_csv_records (save_to_csv data) =
      some (data.map fun r =>
        ({ method := PdCell.vStr r.method, avg_gas := r.avg_gas, size := r.size } : PdRecord)) :=
  pandas_roundtrip data hna htext

theorem C8_pandas_roundtrip_witness :
    (∀ r ∈ rtData, isNA r.method = false)
      ∧ (rtData = [] ∨ ∃ r ∈ rtData, pdText r.method = true)
      ∧ read_csv_records (save_to_csv rtData) =
        some (rtData.map fun r =>
          ({ method := PdCell.vStr r.method, avg_gas := r.avg_gas, size := r.size } : PdRecord)) :=
  ⟨by decide, by decide, C8_pandas_roundtrip rtData (by decide) (by decide)⟩
